import Mathlib

/-!
Shallow embedding of the raster-stacking pipeline of
`src/_solved/14-combine-data.ipynb` (DS-python-geospatial).

The notebook enumerates GeoTIFF files with `Path(...).rglob("*.tiff")` and
`sorted`, parses an acquisition date out of each file name with
`pd.to_datetime(file_name.stem.split(",")[0])`, concatenates the per-file
arrays along a new labelled `date` dimension with `xr.concat`, and persists
the stack to NetCDF or Zarr.  Library primitives (`pd.to_datetime`,
`xr.concat`, `open_mfdataset`, `to_netcdf`/`to_zarr`) are modelled from their
documented behaviour as used by the notebook; the glue code (listing,
sorting, splitting the stem, building the date variable, the
`add_date_dimension` preprocess hook) is translated directly.
-/

namespace CombineData

/-- A calendar date, the result of `pd.to_datetime` on a date string. -/
structure Date where
  year : Nat
  month : Nat
  day : Nat
deriving DecidableEq

/-- Gregorian leap-year rule, as used by calendar validation. -/
def isLeapYear (y : Nat) : Bool :=
  (y % 4 == 0 && y % 100 != 0) || y % 400 == 0

/-- Number of days of month `m` of year `y`. -/
def daysInMonth (y m : Nat) : Nat :=
  if m = 2 then (if isLeapYear y then 29 else 28)
  else if m = 4 ∨ m = 6 ∨ m = 9 ∨ m = 11 then 30
  else 31

/-- Value of a decimal digit character, `none` on non-digits. -/
def digitVal (c : Char) : Option Nat :=
  if c.isDigit then some (c.toNat - 48) else none

/-- Modelled from the spec: `pd.to_datetime` restricted to the repository's
file-name convention (§6: `"<ISO-or-parseable-date>, <free text>.tiff"`).
Parses an ISO `YYYY-MM-DD` string into a calendar date, validating month and
day ranges; every other string fails (models the raised `ParserError`). -/
def to_datetime (s : String) : Option Date :=
  match s.data with
  | [y1, y2, y3, y4, c1, m1, m2, c2, d1, d2] =>
    if c1 = '-' ∧ c2 = '-' then
      match digitVal y1, digitVal y2, digitVal y3, digitVal y4,
            digitVal m1, digitVal m2, digitVal d1, digitVal d2 with
      | some a, some b, some c, some d, some e, some f, some g, some h =>
        let y := ((a * 10 + b) * 10 + c) * 10 + d
        let mo := e * 10 + f
        let dy := g * 10 + h
        if 1 ≤ mo ∧ mo ≤ 12 ∧ 1 ≤ dy ∧ dy ≤ daysInMonth y mo then
          some ⟨y, mo, dy⟩
        else none
      | _, _, _, _, _, _, _, _ => none
    else none
  | _ => none

/-- `pathlib.PurePath.stem`: the final component without its suffix.  The
suffix starts at the last dot, provided that dot is neither the first nor the
last character of the name. -/
def stem (name : String) : String :=
  let cs := name.data
  match List.findIdx? (fun c => c == '.') cs.reverse with
  | none => name
  | some j =>
    let i := cs.length - 1 - j
    if 0 < i ∧ i + 1 < cs.length then String.mk (cs.take i) else name

/-- `s.split(",")[0]`: the part of `s` before the first comma (the whole of
`s` when it has no comma). -/
def commaField (s : String) : String :=
  String.mk (s.data.takeWhile (fun c => c != ','))

/-- The per-file date extraction of the notebook:
`pd.to_datetime(file_name.stem.split(",")[0])`. -/
def moisture_index_date (name : String) : Option Date :=
  to_datetime (commaField (stem name))

/-- A decoded raster: the labelled array `xr.open_dataarray(file, engine="rasterio")`
yields, reduced to what the pipeline manipulates — its ordered dimension
names (e.g. `["band", "y", "x"]`), their sizes, and the flattened pixel
values.  `α` is the pixel value type. -/
structure DataArr (α : Type) where
  dims : List String
  shape : List Nat
  values : List α
deriving DecidableEq

/-- The result of stacking: a labelled array with one new axis (name
`axisName`, labels `labels`) prepended to the shared per-file dims/shape,
holding one slice of values per input. -/
structure Stacked (α L : Type) where
  axisName : String
  labels : List L
  sliceDims : List String
  sliceShape : List Nat
  slices : List (List α)
deriving DecidableEq

/-- Errors of `xr.concat` as exercised by the notebook. -/
inductive ConcatError
  | emptyInput
  | shapeMismatch
  | lengthMismatch
deriving DecidableEq

/-- Modelled from the spec: `xr.concat(arrs, dim=Variable(axisName, labels))`.
Fails on an empty input list (xarray: "must supply at least one object to
concatenate"), when the label variable's length does not match the number of
arrays, or when the inputs do not agree on the non-stacked dimensions
(§4.3: "any per-file shape/dimension mismatch aborts concatenation").
Otherwise returns the stack along the new axis, in input order. -/
def xconcat (axisName : String) (labels : List L) :
    List (DataArr α) → Except ConcatError (Stacked α L)
  | [] => .error .emptyInput
  | a :: rest =>
    if labels.length = rest.length + 1 then
      if rest.all (fun b => b.dims == a.dims && b.shape == a.shape) then
        .ok ⟨axisName, labels, a.dims, a.shape, (a :: rest).map (fun x => x.values)⟩
      else .error .shapeMismatch
    else .error .lengthMismatch

/-- One raster file of the input directory tree: its directory components
below the searched root (empty for a file directly in the root), its file
name, and the raster it decodes to. -/
structure FsFile (α : Type) where
  parts : List String
  name : String
  raster : DataArr α
deriving DecidableEq

/-- The path of a file relative to the searched root, components joined
with `/` (the string `sorted` compares and `ds.encoding["source"]` holds). -/
def joinPath : List String → String → String
  | [], name => name
  | p :: rest, name => p ++ "/" ++ joinPath rest name

/-- Full relative path of a file. -/
def FsFile.pathString (f : FsFile α) : String :=
  joinPath f.parts f.name

/-- `s.endswith(suf)` on code points: the pattern `*.tiff` of `rglob`
matches exactly the names ending in `.tiff`. -/
def strEndsWith (s suf : String) : Bool :=
  s.data.reverse.take suf.data.length == suf.data.reverse

/-- Code-point lexicographic order on character lists: how Python compares
the path strings inside `sorted`. -/
def leChars : List Char → List Char → Bool
  | [], _ => true
  | _ :: _, [] => false
  | a :: as, b :: bs =>
    if a < b then true else if b < a then false else leChars as bs

/-- Path comparison used to sort the enumerated files. -/
def pathLe (f g : FsFile α) : Bool :=
  leChars f.pathString.data g.pathString.data

/-- Insert a file into an already sorted list (stable). -/
def insertFile (f : FsFile α) : List (FsFile α) → List (FsFile α)
  | [] => [f]
  | g :: rest => if pathLe f g then f :: g :: rest else g :: insertFile f rest

/-- Python's `sorted` on file paths, embedded as a stable insertion sort. -/
def sortFiles : List (FsFile α) → List (FsFile α)
  | [] => []
  | f :: rest => insertFile f (sortFiles rest)

/-- `list(sorted(Path(root).rglob("*.tiff")))`: `rglob` walks the whole tree
below the root, so a file at any nesting depth whose name matches `*.tiff`
is returned; `sorted` orders the matches by path string.  The input list
`fs` is the directory tree's files in arbitrary enumeration order. -/
def moisture_index_files (fs : List (FsFile α)) : List (FsFile α) :=
  sortFiles (fs.filter (fun f => strEndsWith f.name ".tiff"))

/-- The date-extraction list comprehension
`[pd.to_datetime(f.stem.split(",")[0]) for f in moisture_index_files]`:
one date per file, the first unparseable name aborting the run with that
name (the raised `ParserError`). -/
def moisture_index_dates : List (FsFile α) → Except String (List Date)
  | [] => .ok []
  | f :: rest =>
    match moisture_index_date f.name with
    | none => .error f.name
    | some d =>
      match moisture_index_dates rest with
      | .error n => .error n
      | .ok ds => .ok (d :: ds)

/-- Errors the eager pipeline can surface. -/
inductive PipelineError
  | dateParse (fileName : String)
  | concat (e : ConcatError)
deriving DecidableEq

/-- The concatenation stage of the eager pipeline: open every enumerated
file and concatenate along the `date` variable built from the parsed dates. -/
def stackStage (files : List (FsFile α)) (dates : List Date) :
    Except PipelineError (Stacked α Date) :=
  match xconcat "date" dates (files.map (fun f => f.raster)) with
  | .error e => .error (.concat e)
  | .ok s => .ok s

/-- The eager pipeline of the notebook, end to end: enumerate and sort the
`.tiff` files, parse the date of each name, build the `date` variable, open
every file and concatenate along the new `date` dimension. -/
def run_pipeline (fs : List (FsFile α)) : Except PipelineError (Stacked α Date) :=
  match moisture_index_dates (moisture_index_files fs) with
  | .error n => .error (.dateParse n)
  | .ok dates => stackStage (moisture_index_files fs) dates

/-- Well-formedness of a stack as produced by concatenation: one label per
slice, and every slice holds exactly one value per cell of the shared
per-file shape. -/
def Stacked.WF (s : Stacked α L) : Prop :=
  s.labels.length = s.slices.length ∧ ∀ v ∈ s.slices, v.length = s.sliceShape.prod

/-- Modelled from the spec: the on-disk image of `to_netcdf` — a single
self-describing file embedding the dimension names, coordinate labels and
the data block (§4.4).  The data is one flattened block. -/
structure NetCDFFile (α L : Type) where
  axisName : String
  labels : List L
  sliceDims : List String
  sliceShape : List Nat
  count : Nat
  data : List α
deriving DecidableEq

/-- `moisture_index.to_netcdf("moisture_index_stacked.nc")`. -/
def to_netcdf (s : Stacked α L) : NetCDFFile α L :=
  ⟨s.axisName, s.labels, s.sliceDims, s.sliceShape, s.slices.length, s.slices.flatten⟩

/-- Split a flat block back into `n` slices of `k` values each. -/
def chunksOf : Nat → Nat → List α → List (List α)
  | 0, _, _ => []
  | n + 1, k, l => l.take k :: chunksOf n k (l.drop k)

/-- `xr.open_dataset("moisture_index_stacked.nc", engine="netcdf4")`:
decode the self-describing file back into a stacked array. -/
def open_dataset_nc (f : NetCDFFile α L) : Stacked α L :=
  ⟨f.axisName, f.labels, f.sliceDims, f.sliceShape, chunksOf f.count f.sliceShape.prod f.data⟩

/-- Modelled from the spec: the on-disk image of `to_zarr` — a chunked
directory store, one chunk per position along the stacked axis (the notebook:
"divided into 3 chunks, i.e. a chunk for each date"), each chunk keyed by its
axis index. -/
structure ZarrStore (α L : Type) where
  axisName : String
  labels : List L
  sliceDims : List String
  sliceShape : List Nat
  chunks : List (Nat × List α)
deriving DecidableEq

/-- `moisture_index_lazy.to_zarr("moisture_index_stacked.zarr")`. -/
def to_zarr (s : Stacked α L) : ZarrStore α L :=
  ⟨s.axisName, s.labels, s.sliceDims, s.sliceShape,
    (List.range s.slices.length).zip s.slices⟩

/-- `xr.open_dataset("moisture_index_stacked.zarr", engine="zarr")`:
reassemble the chunks in axis order. -/
def open_dataset_zarr (z : ZarrStore α L) : Stacked α L :=
  ⟨z.axisName, z.labels, z.sliceDims, z.sliceShape, z.chunks.map Prod.snd⟩

/-- One per-file dataset inside `open_mfdataset`: the source path xarray
records in `ds.encoding["source"]`, the name of its single data variable
(`"band_data"` as decoded by the rasterio engine), its `date` coordinate
labels (empty until the preprocess hook attaches them), and the array. -/
structure Dataset (α : Type) where
  source : String
  varName : String
  dateCoord : List Date
  arr : DataArr α
deriving DecidableEq

/-- The final component of a path string (what `Path(source).name` is). -/
def lastComponent (s : String) : String :=
  String.mk ((s.data.reverse.takeWhile (fun c => c != '/')).reverse)

/-- Opening one file inside `open_mfdataset` with the rasterio engine:
the single data variable is named `band_data` and the source path is
recorded in the encoding. -/
def open_rasterio (f : FsFile α) : Dataset α :=
  ⟨f.pathString, "band_data", [], f.raster⟩

/-- The notebook's preprocess hook: parse the date out of
`Path(ds.encoding["source"]).stem.split(",")[0]` (a parse failure raises,
modelled as an error carrying the source), attach it as the `date`
coordinate, and rename `band_data` to `moisture_index` (the rename raises
when no variable of that name exists). -/
def add_date_dimension (ds : Dataset α) : Except String (Dataset α) :=
  match to_datetime (commaField (stem (lastComponent ds.source))) with
  | none => .error ds.source
  | some d =>
    if ds.varName = "band_data" then
      .ok ⟨ds.source, "moisture_index", [d], ds.arr⟩
    else .error ds.varName

/-- Apply the caller-supplied preprocess hook once to each per-file dataset,
in order, the first failure aborting (xarray calls the hook on each dataset
prior to concatenation). -/
def preprocessAll (p : Dataset α → Except String (Dataset α)) :
    List (Dataset α) → Except String (List (Dataset α))
  | [] => .ok []
  | d :: rest =>
    match p d with
    | .error m => .error m
    | .ok d2 =>
      match preprocessAll p rest with
      | .error m => .error m
      | .ok ds => .ok (d2 :: ds)

/-- Errors of the lazy loading path. -/
inductive MfError
  | preprocessErr (source : String)
  | inconsistentVars
  | concat (e : ConcatError)
deriving DecidableEq

/-- A combined dataset: the common data-variable name and the stacked array
underneath it. -/
structure StackedDs (α : Type) where
  varName : String
  data : Stacked α Date
deriving DecidableEq

/-- The combining step of `open_mfdataset`: concatenate the preprocessed
per-file datasets along the `date` coordinate — the axis labels are the
concatenated per-file `date` coordinates in input order and the chunks are
the per-file arrays.  All inputs must carry the same variable name to end
up in one data variable. -/
def combineStage : List (Dataset α) → Except MfError (StackedDs α)
  | [] => .error (.concat .emptyInput)
  | d0 :: rest =>
    if (d0 :: rest).all (fun d => d.varName == d0.varName) then
      match xconcat "date" ((d0 :: rest).flatMap (fun d => d.dateCoord))
          ((d0 :: rest).map (fun d => d.arr)) with
      | .error e => .error (.concat e)
      | .ok s => .ok ⟨d0.varName, s⟩
    else .error .inconsistentVars

/-- Modelled from the spec: `xr.open_mfdataset(files, preprocess=p,
engine="rasterio")` on an already sorted file list — open each file, call
the hook `p` exactly once on each per-file dataset prior to concatenation,
then combine the results. -/
def open_mfdataset (p : Dataset α → Except String (Dataset α))
    (files : List (FsFile α)) : Except MfError (StackedDs α) :=
  match preprocessAll p (files.map open_rasterio) with
  | .error m => .error (.preprocessErr m)
  | .ok dss => combineStage dss

/-- The notebook's lazy pipeline:
`xr.open_mfdataset(sorted(Path(root).rglob("*.tiff")), preprocess=add_date_dimension, engine="rasterio")`. -/
def moisture_index_lazy (fs : List (FsFile α)) : Except MfError (StackedDs α) :=
  open_mfdataset add_date_dimension (moisture_index_files fs)

/-! ### Order lemmas for the path comparator -/

theorem leChars_total : ∀ x y : List Char, leChars x y = true ∨ leChars y x = true
  | [], _ => Or.inl rfl
  | _ :: _, [] => Or.inr rfl
  | a :: as, b :: bs => by
    by_cases hab : a < b
    · exact Or.inl (by simp [leChars, hab])
    · by_cases hba : b < a
      · exact Or.inr (by simp [leChars, hba, asymm hba])
      · rcases leChars_total as bs with h | h
        · exact Or.inl (by simp [leChars, hab, hba, h])
        · exact Or.inr (by simp [leChars, hab, hba, h])

theorem leChars_trans : ∀ x y z : List Char,
    leChars x y = true → leChars y z = true → leChars x z = true
  | [], _, _, _, _ => rfl
  | a :: as, [], _, hxy, _ => by simp [leChars] at hxy
  | a :: as, b :: bs, [], _, hyz => by simp [leChars] at hyz
  | a :: as, b :: bs, c :: cs, hxy, hyz => by
    by_cases hab : a < b
    · by_cases hbc : b < c
      · simp [leChars, lt_trans hab hbc]
      · by_cases hcb : c < b
        · simp [leChars, hbc, hcb] at hyz
        · have hbc' : b = c := le_antisymm (not_lt.mp hcb) (not_lt.mp hbc)
          subst hbc'
          simp [leChars, hab]
    · by_cases hba : b < a
      · simp [leChars, hab, hba] at hxy
      · have hab' : a = b := le_antisymm (not_lt.mp hba) (not_lt.mp hab)
        subst hab'
        simp only [leChars, if_neg hab, if_neg hba] at hxy
        by_cases hbc : a < c
        · simp [leChars, hbc]
        · by_cases hcb : c < a
          · simp [leChars, hbc, hcb] at hyz
          · simp only [leChars, if_neg hbc, if_neg hcb] at hyz ⊢
            exact leChars_trans as bs cs hxy hyz

theorem leChars_antisymm : ∀ x y : List Char,
    leChars x y = true → leChars y x = true → x = y
  | [], [], _, _ => rfl
  | [], _ :: _, _, hyx => by simp [leChars] at hyx
  | _ :: _, [], hxy, _ => by simp [leChars] at hxy
  | a :: as, b :: bs, hxy, hyx => by
    by_cases hab : a < b
    · simp [leChars, hab, asymm hab] at hyx
    · by_cases hba : b < a
      · simp [leChars, hab, hba] at hxy
      · have hab' : a = b := le_antisymm (not_lt.mp hba) (not_lt.mp hab)
        subst hab'
        simp only [leChars, if_neg hab, if_neg hba] at hxy hyx
        rw [leChars_antisymm as bs hxy hyx]

theorem pathLe_total (f g : FsFile α) : pathLe f g = true ∨ pathLe g f = true :=
  leChars_total _ _

theorem pathLe_trans {f g h : FsFile α} (h1 : pathLe f g = true)
    (h2 : pathLe g h = true) : pathLe f h = true :=
  leChars_trans _ _ _ h1 h2

theorem pathLe_antisymm {f g : FsFile α} (h1 : pathLe f g = true)
    (h2 : pathLe g f = true) : f.pathString = g.pathString :=
  String.ext (leChars_antisymm _ _ h1 h2)

/-! ### The enumerator sorts: permutation and sortedness -/

theorem insertFile_perm (f : FsFile α) :
    ∀ l : List (FsFile α), (insertFile f l).Perm (f :: l)
  | [] => List.Perm.refl _
  | g :: rest => by
    by_cases h : pathLe f g
    · simp [insertFile, h]
    · simp only [insertFile, if_neg h]
      exact ((insertFile_perm f rest).cons g).trans (List.Perm.swap f g rest)

theorem sortFiles_perm : ∀ l : List (FsFile α), (sortFiles l).Perm l
  | [] => List.Perm.refl _
  | f :: rest => (insertFile_perm f (sortFiles rest)).trans ((sortFiles_perm rest).cons f)

theorem insertFile_pairwise (f : FsFile α) :
    ∀ l : List (FsFile α), l.Pairwise (fun a b => pathLe a b = true) →
      (insertFile f l).Pairwise (fun a b => pathLe a b = true)
  | [], _ => by simp [insertFile]
  | g :: rest, h => by
    rcases List.pairwise_cons.mp h with ⟨hg, hrest⟩
    by_cases hfg : pathLe f g
    · simp only [insertFile, if_pos hfg]
      refine List.pairwise_cons.mpr ⟨?_, h⟩
      intro x hx
      rcases List.mem_cons.mp hx with rfl | hx'
      · exact hfg
      · exact pathLe_trans hfg (hg x hx')
    · simp only [insertFile, if_neg hfg]
      refine List.pairwise_cons.mpr ⟨?_, insertFile_pairwise f rest hrest⟩
      intro x hx
      rcases List.mem_cons.mp ((insertFile_perm f rest).mem_iff.mp hx) with hxf | hx'
      · rw [hxf]
        rcases pathLe_total f g with h' | h'
        · exact absurd h' hfg
        · exact h'
      · exact hg x hx'

theorem sortFiles_pairwise :
    ∀ l : List (FsFile α), (sortFiles l).Pairwise (fun a b => pathLe a b = true)
  | [] => List.Pairwise.nil
  | f :: rest => insertFile_pairwise f (sortFiles rest) (sortFiles_pairwise rest)

/-- Two sorted lists that are permutations of each other and whose path
strings are pairwise distinct are equal: the sorted enumeration is uniquely
determined by the set of files. -/
theorem sorted_perm_nodup_eq :
    ∀ l1 l2 : List (FsFile α), l1.Perm l2 →
      l1.Pairwise (fun a b => pathLe a b = true) →
      l2.Pairwise (fun a b => pathLe a b = true) →
      (l1.map FsFile.pathString).Nodup → l1 = l2
  | [], l2, hp, _, _, _ => (hp.symm.eq_nil).symm
  | a :: t1, [], hp, _, _, _ => hp.eq_nil
  | a :: t1, b :: t2, hp, h1, h2, hnd => by
    by_cases hab : a = b
    · subst hab
      rcases List.pairwise_cons.mp h1 with ⟨_, h1t⟩
      rcases List.pairwise_cons.mp h2 with ⟨_, h2t⟩
      have hndt : (t1.map FsFile.pathString).Nodup :=
        (List.nodup_cons.mp (by simpa using hnd)).2
      rw [sorted_perm_nodup_eq t1 t2 hp.cons_inv h1t h2t hndt]
    · exfalso
      have hat2 : a ∈ t2 := by
        rcases List.mem_cons.mp (hp.mem_iff.mp (List.mem_cons_self a t1)) with h | h
        · exact absurd h hab
        · exact h
      have hbt1 : b ∈ t1 := by
        rcases List.mem_cons.mp (hp.mem_iff.mpr (List.mem_cons_self b t2)) with h | h
        · exact absurd h.symm hab
        · exact h
      have hba : pathLe b a = true := List.rel_of_pairwise_cons h2 hat2
      have hab' : pathLe a b = true := List.rel_of_pairwise_cons h1 hbt1
      have hkey : a.pathString = b.pathString := pathLe_antisymm hab' hba
      have : a.pathString ∈ t1.map FsFile.pathString := by
        rw [hkey]
        exact List.mem_map_of_mem FsFile.pathString hbt1
      exact (List.nodup_cons.mp (by simpa using hnd)).1 this

/-! ### File enumerator: membership, order, stability under listing order -/

theorem mem_moisture_index_files {fs : List (FsFile α)} {f : FsFile α} :
    f ∈ moisture_index_files fs ↔ f ∈ fs ∧ strEndsWith f.name ".tiff" = true := by
  unfold moisture_index_files
  rw [(sortFiles_perm _).mem_iff, List.mem_filter]

theorem moisture_index_files_pairwise (fs : List (FsFile α)) :
    (moisture_index_files fs).Pairwise (fun a b => pathLe a b = true) :=
  sortFiles_pairwise _

/-- Two directory listings with the same files (in possibly different
enumeration order, no two files at the same path) enumerate identically. -/
theorem moisture_index_files_perm_eq {fs1 fs2 : List (FsFile α)}
    (hperm : fs1.Perm fs2) (hnd : (fs1.map FsFile.pathString).Nodup) :
    moisture_index_files fs1 = moisture_index_files fs2 := by
  have hfilter : (fs1.filter (fun f => strEndsWith f.name ".tiff")).Perm
      (fs2.filter (fun f => strEndsWith f.name ".tiff")) := hperm.filter _
  have hp : (moisture_index_files fs1).Perm (moisture_index_files fs2) :=
    ((sortFiles_perm _).trans hfilter).trans (sortFiles_perm _).symm
  have hnd1 : ((moisture_index_files fs1).map FsFile.pathString).Nodup := by
    have hsub : ((fs1.filter (fun f => strEndsWith f.name ".tiff")).map
        FsFile.pathString).Nodup :=
      ((List.filter_sublist fs1).map FsFile.pathString).nodup hnd
    exact ((sortFiles_perm _).map FsFile.pathString).symm.nodup hsub
  exact sorted_perm_nodup_eq _ _ hp (sortFiles_pairwise _) (sortFiles_pairwise _) hnd1

/-! ### Date extraction over a file list -/

theorem moisture_index_dates_length :
    ∀ {l : List (FsFile α)} {ds : List Date},
      moisture_index_dates l = .ok ds → ds.length = l.length := by
  intro l
  induction l with
  | nil => intro ds h; cases h; rfl
  | cons f rest ih =>
    intro ds h
    unfold moisture_index_dates at h
    cases hd : moisture_index_date f.name with
    | none => rw [hd] at h; cases h
    | some d =>
      rw [hd] at h
      cases hr : moisture_index_dates rest with
      | error n => rw [hr] at h; cases h
      | ok ds' =>
        rw [hr] at h
        cases h
        simp [ih hr]

theorem moisture_index_dates_error_iff {l : List (FsFile α)} :
    (∃ n, moisture_index_dates l = .error n) ↔
      ∃ f ∈ l, moisture_index_date f.name = none := by
  induction l with
  | nil => simp [moisture_index_dates]
  | cons f rest ih =>
    constructor
    · rintro ⟨n, h⟩
      unfold moisture_index_dates at h
      cases hd : moisture_index_date f.name with
      | none => exact ⟨f, List.mem_cons_self f rest, hd⟩
      | some d =>
        rw [hd] at h
        cases hr : moisture_index_dates rest with
        | error m =>
          rcases ih.mp ⟨m, hr⟩ with ⟨g, hg, hgd⟩
          exact ⟨g, List.mem_cons_of_mem f hg, hgd⟩
        | ok ds => rw [hr] at h; cases h
    · rintro ⟨g, hg, hgd⟩
      rcases List.mem_cons.mp hg with hgf | hg'
      · subst hgf
        refine ⟨g.name, ?_⟩
        unfold moisture_index_dates
        rw [hgd]
      · rcases ih.mpr ⟨g, hg', hgd⟩ with ⟨m, hm⟩
        unfold moisture_index_dates
        cases hd : moisture_index_date f.name with
        | none => exact ⟨f.name, rfl⟩
        | some d => rw [hm]; exact ⟨m, rfl⟩

/-! ### Concatenation -/

theorem xconcat_eq_ok {a : DataArr α} {rest : List (DataArr α)}
    (axisName : String) (labels : List L)
    (hlen : labels.length = rest.length + 1)
    (hsh : ∀ b ∈ rest, b.dims = a.dims ∧ b.shape = a.shape) :
    xconcat axisName labels (a :: rest) =
      .ok ⟨axisName, labels, a.dims, a.shape, (a :: rest).map (fun x => x.values)⟩ := by
  simp only [xconcat]
  rw [if_pos hlen, if_pos]
  rw [List.all_eq_true]
  intro b hb
  rcases hsh b hb with ⟨h1, h2⟩
  simp [h1, h2]

theorem xconcat_shapeMismatch {a : DataArr α} {rest : List (DataArr α)}
    (axisName : String) (labels : List L)
    (hlen : labels.length = rest.length + 1)
    (hne : ∃ b ∈ rest, b.dims ≠ a.dims ∨ b.shape ≠ a.shape) :
    xconcat axisName labels (a :: rest) = .error .shapeMismatch := by
  simp only [xconcat]
  rw [if_pos hlen, if_neg]
  intro hall
  rcases hne with ⟨b, hb, hbad⟩
  have hb2 := List.all_eq_true.mp hall b hb
  simp only [Bool.and_eq_true, beq_iff_eq] at hb2
  rcases hbad with h | h
  · exact h hb2.1
  · exact h hb2.2

theorem run_pipeline_of_dates_error {fs : List (FsFile α)} {n : String}
    (hd : moisture_index_dates (moisture_index_files fs) = .error n) :
    run_pipeline fs = .error (.dateParse n) := by
  unfold run_pipeline
  rw [hd]

theorem run_pipeline_of_dates_ok {fs : List (FsFile α)} {dates : List Date}
    (hd : moisture_index_dates (moisture_index_files fs) = .ok dates) :
    run_pipeline fs = stackStage (moisture_index_files fs) dates := by
  unfold run_pipeline
  rw [hd]

theorem stackStage_of_concat_error {files : List (FsFile α)} {dates : List Date}
    {e : ConcatError}
    (hx : xconcat "date" dates (files.map (fun f => f.raster)) = .error e) :
    stackStage files dates = .error (.concat e) := by
  unfold stackStage
  rw [hx]

theorem stackStage_of_concat_ok {files : List (FsFile α)} {dates : List Date}
    {s : Stacked α Date}
    (hx : xconcat "date" dates (files.map (fun f => f.raster)) = .ok s) :
    stackStage files dates = .ok s := by
  unfold stackStage
  rw [hx]

theorem stackStage_ne_dateParse (files : List (FsFile α)) (dates : List Date)
    (n : String) : stackStage files dates ≠ .error (.dateParse n) := by
  unfold stackStage
  cases xconcat "date" dates (files.map (fun f => f.raster)) <;> simp

/-! ### Serialization -/

theorem chunksOf_flatten (k : Nat) :
    ∀ xss : List (List α), (∀ x ∈ xss, x.length = k) →
      chunksOf xss.length k xss.flatten = xss
  | [], _ => rfl
  | x :: rest, h => by
    have hx : x.length = k := h x (List.mem_cons_self x rest)
    have hrest : ∀ y ∈ rest, y.length = k := fun y hy => h y (List.mem_cons_of_mem x hy)
    simp only [List.length_cons, List.flatten_cons, chunksOf]
    rw [List.take_left' hx, List.drop_left' hx, chunksOf_flatten k rest hrest]

/-! ### Path strings and the preprocess hook -/

theorem takeWhile_of_all {p : Char → Bool} :
    ∀ l : List Char, (∀ c ∈ l, p c = true) → l.takeWhile p = l
  | [], _ => rfl
  | c :: rest, h => by
    rw [List.takeWhile_cons, if_pos (h c (List.mem_cons_self c rest)),
      takeWhile_of_all rest (fun x hx => h x (List.mem_cons_of_mem c hx))]

theorem takeWhile_append_of_neg {p : Char → Bool} {x : Char} (hx : p x = false) :
    ∀ l r : List Char, (l ++ x :: r).takeWhile p = l.takeWhile p
  | [], r => by simp [List.takeWhile_cons, hx]
  | c :: rest, r => by
    by_cases hc : p c
    · rw [List.cons_append, List.takeWhile_cons, if_pos hc,
        takeWhile_append_of_neg hx rest r, List.takeWhile_cons, if_pos hc]
    · rw [List.cons_append, List.takeWhile_cons,
        if_neg hc, List.takeWhile_cons, if_neg hc]

theorem string_mk_data (s : String) : String.mk s.data = s := by
  cases s
  rfl

theorem lastComponent_of_noSlash {name : String}
    (h : ∀ c ∈ name.data, (c != '/') = true) : lastComponent name = name := by
  unfold lastComponent
  rw [takeWhile_of_all name.data.reverse (fun c hc => h c (List.mem_reverse.mp hc)),
    List.reverse_reverse, string_mk_data]

theorem lastComponent_joinPath {name : String}
    (h : ∀ c ∈ name.data, (c != '/') = true) :
    ∀ parts : List String, lastComponent (joinPath parts name) = name
  | [] => lastComponent_of_noSlash h
  | p :: rest => by
    show lastComponent (p ++ "/" ++ joinPath rest name) = name
    unfold lastComponent
    have hdata : (p ++ "/" ++ joinPath rest name).data.reverse =
        (joinPath rest name).data.reverse ++ '/' :: p.data.reverse := by
      simp [String.data_append]
    rw [hdata, takeWhile_append_of_neg rfl]
    have := lastComponent_joinPath h rest
    unfold lastComponent at this
    exact this

/-- The per-file dataset `add_date_dimension` hands to the concatenation:
date coordinate parsed from the file's own name, variable renamed. -/
def preprocessedDs (f : FsFile α) (d : Date) : Dataset α :=
  ⟨f.pathString, "moisture_index", [d], f.raster⟩

theorem add_date_dimension_open_rasterio {f : FsFile α} {d : Date}
    (hslash : ∀ c ∈ f.name.data, (c != '/') = true)
    (hd : moisture_index_date f.name = some d) :
    add_date_dimension (open_rasterio f) = .ok (preprocessedDs f d) := by
  unfold add_date_dimension open_rasterio
  have hlast : lastComponent f.pathString = f.name := by
    show lastComponent (joinPath f.parts f.name) = f.name
    exact lastComponent_joinPath hslash f.parts
  unfold moisture_index_date at hd
  simp only [hlast, hd]
  rfl

theorem preprocessAll_add_date :
    ∀ (files : List (FsFile α)) (dates : List Date),
      (∀ f ∈ files, ∀ c ∈ f.name.data, (c != '/') = true) →
      moisture_index_dates files = .ok dates →
      preprocessAll add_date_dimension (files.map open_rasterio) =
        .ok (List.zipWith preprocessedDs files dates)
  | [], dates, _, hdates => by
    cases hdates
    rfl
  | f :: rest, dates, hslash, hdates => by
    unfold moisture_index_dates at hdates
    cases hd : moisture_index_date f.name with
    | none => rw [hd] at hdates; cases hdates
    | some d =>
      rw [hd] at hdates
      cases hr : moisture_index_dates rest with
      | error n => rw [hr] at hdates; cases hdates
      | ok ds =>
        rw [hr] at hdates
        cases hdates
        have hf := add_date_dimension_open_rasterio
          (hslash f (List.mem_cons_self f rest)) hd
        have hrec := preprocessAll_add_date rest ds
          (fun g hg => hslash g (List.mem_cons_of_mem f hg)) hr
        simp only [List.map_cons, preprocessAll, hf, hrec, List.zipWith_cons_cons]

theorem flatMap_dateCoord_zipWith :
    ∀ (files : List (FsFile α)) (dates : List Date), files.length = dates.length →
      (List.zipWith preprocessedDs files dates).flatMap (fun d => d.dateCoord) = dates
  | [], [], _ => rfl
  | [], _ :: _, h => by cases h
  | _ :: _, [], h => by cases h
  | f :: fr, d :: dr, h => by
    simp only [List.zipWith_cons_cons, List.flatMap_cons,
      flatMap_dateCoord_zipWith fr dr (by simpa using h)]
    rfl

theorem map_arr_zipWith :
    ∀ (files : List (FsFile α)) (dates : List Date), files.length = dates.length →
      (List.zipWith preprocessedDs files dates).map (fun d => d.arr) =
        files.map (fun f => f.raster)
  | [], [], _ => rfl
  | [], _ :: _, h => by cases h
  | _ :: _, [], h => by cases h
  | f :: fr, d :: dr, h => by
    simp only [List.zipWith_cons_cons, List.map_cons,
      map_arr_zipWith fr dr (by simpa using h)]
    rfl

theorem varName_of_mem_zipWith {x : Dataset α} :
    ∀ {files : List (FsFile α)} {dates : List Date},
      x ∈ List.zipWith preprocessedDs files dates → x.varName = "moisture_index" := by
  intro files
  induction files with
  | nil => intro dates h; cases h
  | cons f fr ih =>
    intro dates h
    cases dates with
    | nil => cases h
    | cons d dr =>
      rcases List.mem_cons.mp (by simpa using h) with hx | hx
      · rw [hx]; rfl
      · exact ih hx

theorem open_mfdataset_of_preprocess_ok {p : Dataset α → Except String (Dataset α)}
    {files : List (FsFile α)} {dss : List (Dataset α)}
    (h : preprocessAll p (files.map open_rasterio) = .ok dss) :
    open_mfdataset p files = combineStage dss := by
  unfold open_mfdataset
  rw [h]

theorem combineStage_cons_ok {d0 : Dataset α} {rest : List (Dataset α)}
    {s : Stacked α Date}
    (hall : ((d0 :: rest).all (fun d => d.varName == d0.varName)) = true)
    (hx : xconcat "date" ((d0 :: rest).flatMap (fun d => d.dateCoord))
        ((d0 :: rest).map (fun d => d.arr)) = .ok s) :
    combineStage (d0 :: rest) = .ok ⟨d0.varName, s⟩ := by
  simp only [combineStage]
  rw [if_pos hall, hx]

/-! ### Claim theorems -/

/-- C4: for every directory listing and the `.tiff` suffix filter, the file
enumerator returns exactly the files whose names match the suffix, ordered
by the lexicographic path comparison; being a pure function of the listing,
it is deterministic. -/
theorem enumerator_exact_and_sorted (fs : List (FsFile α)) :
    (∀ f, f ∈ moisture_index_files fs ↔
        f ∈ fs ∧ strEndsWith f.name ".tiff" = true) ∧
      (moisture_index_files fs).Pairwise (fun a b => pathLe a b = true) :=
  ⟨fun _ => mem_moisture_index_files, moisture_index_files_pairwise fs⟩

/-- C9: enumeration is recursive — a matching file inside a nested
subdirectory (nonempty `parts`) is included in the enumerator's result, not
only files directly in the searched root. -/
theorem enumerator_recursive (fs : List (FsFile α)) (f : FsFile α)
    (hmem : f ∈ fs) (_hnested : f.parts ≠ [])
    (hsuf : strEndsWith f.name ".tiff" = true) :
    f ∈ moisture_index_files fs :=
  mem_moisture_index_files.mpr ⟨hmem, hsuf⟩

/-- C9 witness: a file two directories deep is enumerated. -/
theorem enumerator_recursive_witness :
    (⟨["a", "b"], "2016-05-01, X.tiff", ⟨["band"], [1], [0]⟩⟩ : FsFile Int) ∈
      moisture_index_files
        [(⟨["a", "b"], "2016-05-01, X.tiff", ⟨["band"], [1], [0]⟩⟩ : FsFile Int)] :=
  enumerator_recursive _ _ (by decide) (by decide) (by decide)

/-- C7: on a zero-file input directory the pipeline terminates with the
explicit empty-input concatenation error — an empty result set never
produces a silent crash or an unrelated error. -/
theorem empty_dir_explicit_error (fs : List (FsFile α)) (h : fs = []) :
    run_pipeline fs = .error (.concat .emptyInput) := by
  subst h
  rfl

/-- C7 witness: the empty directory at pixel type `Int`. -/
theorem empty_dir_explicit_error_witness :
    run_pipeline ([] : List (FsFile Int)) = .error (.concat .emptyInput) :=
  empty_dir_explicit_error [] rfl

/-- C10: when the stem contains no comma, the split-on-comma step returns
the whole stem, so date extraction equals parsing the entire stem: it
succeeds exactly when the whole stem is a parseable date. -/
theorem no_comma_whole_stem (name : String)
    (h : ∀ c ∈ (stem name).data, (c != ',') = true) :
    moisture_index_date name = to_datetime (stem name) := by
  unfold moisture_index_date commaField
  rw [takeWhile_of_all _ h, string_mk_data]

/-- C10 witness: a comma-free name whose stem is a plain ISO date. -/
theorem no_comma_whole_stem_witness :
    moisture_index_date "2016-05-01.tiff" = to_datetime (stem "2016-05-01.tiff") ∧
      moisture_index_date "2016-05-01.tiff" = some ⟨2016, 5, 1⟩ :=
  ⟨no_comma_whole_stem "2016-05-01.tiff" (by decide), by decide⟩

/-- C6: re-running the pipeline on an unchanged set of input files —
the same files, listed by the directory walk in any order, no two files at
one path — produces the identical stacked result. -/
theorem rerun_same_inputs_same_result (fs1 fs2 : List (FsFile α))
    (hperm : fs1.Perm fs2) (hnd : (fs1.map FsFile.pathString).Nodup) :
    run_pipeline fs1 = run_pipeline fs2 := by
  unfold run_pipeline
  rw [moisture_index_files_perm_eq hperm hnd]

/-- C2: writing a well-formed stacked array to the single-file NetCDF image
or to the chunked Zarr store and reading it back reproduces the array —
values, axis labels and dimension names included. -/
theorem serialization_roundtrip (s : Stacked α L) (h : s.WF) :
    open_dataset_nc (to_netcdf s) = s ∧ open_dataset_zarr (to_zarr s) = s := by
  constructor
  · cases s with
    | mk axisName labels sliceDims sliceShape slices =>
      unfold open_dataset_nc to_netcdf
      simp only
      rw [chunksOf_flatten sliceShape.prod slices h.2]
  · cases s with
    | mk axisName labels sliceDims sliceShape slices =>
      unfold open_dataset_zarr to_zarr
      simp only
      rw [List.map_snd_zip (List.range slices.length) slices (by simp)]

/-- C2 witness: round-trip of the three-slice stack of the spec scenario. -/
theorem serialization_roundtrip_witness :
    open_dataset_nc (to_netcdf
        (⟨"date", [⟨2016, 5, 1⟩, ⟨2019, 2, 15⟩, ⟨2020, 2, 7⟩], ["band", "y", "x"],
          [1, 2, 2], [[1, 2, 3, 4], [5, 6, 7, 8], [9, 10, 11, 12]]⟩ :
          Stacked Int Date)) =
      ⟨"date", [⟨2016, 5, 1⟩, ⟨2019, 2, 15⟩, ⟨2020, 2, 7⟩], ["band", "y", "x"],
        [1, 2, 2], [[1, 2, 3, 4], [5, 6, 7, 8], [9, 10, 11, 12]]⟩ ∧
    open_dataset_zarr (to_zarr
        (⟨"date", [⟨2016, 5, 1⟩, ⟨2019, 2, 15⟩, ⟨2020, 2, 7⟩], ["band", "y", "x"],
          [1, 2, 2], [[1, 2, 3, 4], [5, 6, 7, 8], [9, 10, 11, 12]]⟩ :
          Stacked Int Date)) =
      ⟨"date", [⟨2016, 5, 1⟩, ⟨2019, 2, 15⟩, ⟨2020, 2, 7⟩], ["band", "y", "x"],
        [1, 2, 2], [[1, 2, 3, 4], [5, 6, 7, 8], [9, 10, 11, 12]]⟩ :=
  serialization_roundtrip _ (by constructor <;> decide)

/-- C3: date extraction splits the stem on the comma and parses the first
segment; the run fails with a date-parse error exactly when some enumerated
file's first segment is not a valid date — a single malformed name aborts
the whole run with no stacked output. -/
theorem malformed_name_aborts_run (fs : List (FsFile α)) :
    (∃ n, run_pipeline fs = .error (.dateParse n)) ↔
      ∃ f ∈ moisture_index_files fs,
        to_datetime (commaField (stem f.name)) = none := by
  constructor
  · rintro ⟨n, h⟩
    cases hd : moisture_index_dates (moisture_index_files fs) with
    | error m =>
      have := moisture_index_dates_error_iff.mp ⟨m, hd⟩
      simpa [moisture_index_date] using this
    | ok ds =>
      rw [run_pipeline_of_dates_ok hd] at h
      exact absurd h (stackStage_ne_dateParse _ _ n)
  · intro hex
    have hex' : ∃ f ∈ moisture_index_files fs, moisture_index_date f.name = none := by
      simpa [moisture_index_date] using hex
    rcases moisture_index_dates_error_iff.mpr hex' with ⟨n, hn⟩
    exact ⟨n, run_pipeline_of_dates_error hn⟩

/-- C3 witness: with `"not-a-date, X.tiff"` among the inputs, the run ends
in a date-parse error. -/
theorem malformed_name_aborts_run_witness :
    ∃ n, run_pipeline
        [(⟨[], "2016-05-01, X.tiff", ⟨["band"], [1], [0]⟩⟩ : FsFile Int),
         ⟨[], "not-a-date, X.tiff", ⟨["band"], [1], [7]⟩⟩] =
      .error (.dateParse n) :=
  (malformed_name_aborts_run _).mpr
    ⟨⟨[], "not-a-date, X.tiff", ⟨["band"], [1], [7]⟩⟩, by decide, by decide⟩

/-- C5: if two enumerated inputs disagree on the non-stacked dimensions
(names or sizes), and the date stage passed, concatenation aborts with the
shape-mismatch error and the pipeline returns no partial stack. -/
theorem shape_mismatch_aborts (fs : List (FsFile α)) (dates : List Date)
    (hdates : moisture_index_dates (moisture_index_files fs) = .ok dates)
    (f g : FsFile α) (hf : f ∈ moisture_index_files fs)
    (hg : g ∈ moisture_index_files fs)
    (hmis : f.raster.dims ≠ g.raster.dims ∨ f.raster.shape ≠ g.raster.shape) :
    run_pipeline fs = .error (.concat .shapeMismatch) := by
  cases hfiles : moisture_index_files fs with
  | nil => rw [hfiles] at hf; cases hf
  | cons a rest =>
    rw [hfiles] at hf hg
    have hdates' : moisture_index_dates (a :: rest) = .ok dates := by
      rw [← hfiles]
      exact hdates
    have hlen : dates.length = rest.length + 1 := by
      simpa using moisture_index_dates_length hdates'
    have hbad : ∃ b ∈ rest.map (fun f => f.raster),
        b.dims ≠ a.raster.dims ∨ b.shape ≠ a.raster.shape := by
      by_cases hfa : f.raster.dims = a.raster.dims ∧ f.raster.shape = a.raster.shape
      · have hga : g.raster.dims ≠ a.raster.dims ∨ g.raster.shape ≠ a.raster.shape := by
          rcases hmis with h | h
          · exact Or.inl fun he => h (hfa.1.trans he.symm)
          · exact Or.inr fun he => h (hfa.2.trans he.symm)
        rcases List.mem_cons.mp hg with hgeq | hgr
        · rw [hgeq] at hga
          rcases hga with h | h <;> exact absurd rfl h
        · exact ⟨g.raster, List.mem_map_of_mem _ hgr, hga⟩
      · have hfa' : f.raster.dims ≠ a.raster.dims ∨ f.raster.shape ≠ a.raster.shape := by
          by_cases h1 : f.raster.dims = a.raster.dims
          · exact Or.inr fun h2 => hfa ⟨h1, h2⟩
          · exact Or.inl h1
        rcases List.mem_cons.mp hf with hfeq | hfr
        · rw [hfeq] at hfa'
          rcases hfa' with h | h <;> exact absurd rfl h
        · exact ⟨f.raster, List.mem_map_of_mem _ hfr, hfa'⟩
    rw [run_pipeline_of_dates_ok hdates, hfiles]
    exact stackStage_of_concat_error
      (by rw [List.map_cons]
          exact xconcat_shapeMismatch "date" dates (by simpa using hlen) hbad)

/-- C5 witness: a 1×1 and a 2×1 raster cannot be stacked. -/
theorem shape_mismatch_aborts_witness :
    run_pipeline
        [(⟨[], "2016-05-01, X.tiff", ⟨["band", "y", "x"], [1, 1, 1], [0]⟩⟩ : FsFile Int),
         ⟨[], "2019-02-15, X.tiff", ⟨["band", "y", "x"], [1, 2, 1], [5, 6]⟩⟩] =
      .error (.concat .shapeMismatch) :=
  shape_mismatch_aborts _ [⟨2016, 5, 1⟩, ⟨2019, 2, 15⟩] (by rfl)
    ⟨[], "2016-05-01, X.tiff", ⟨["band", "y", "x"], [1, 1, 1], [0]⟩⟩
    ⟨[], "2019-02-15, X.tiff", ⟨["band", "y", "x"], [1, 2, 1], [5, 6]⟩⟩
    (by decide) (by decide) (by decide)

/-- C1: on a nonempty set of same-shaped inputs with parseable names, the
eager pipeline stacks them along a new `date` axis whose length is the file
count and whose labels are the parsed dates in enumeration order; the slices
are the per-file values in the same order. -/
theorem stacking_new_axis (fs : List (FsFile α)) (dates : List Date)
    (hdates : moisture_index_dates (moisture_index_files fs) = .ok dates)
    (hne : moisture_index_files fs ≠ [])
    (hsh : ∀ f ∈ moisture_index_files fs, ∀ g ∈ moisture_index_files fs,
      f.raster.dims = g.raster.dims ∧ f.raster.shape = g.raster.shape) :
    ∃ s, run_pipeline fs = .ok s ∧ s.axisName = "date" ∧ s.labels = dates ∧
      s.labels.length = (moisture_index_files fs).length ∧
      s.slices = (moisture_index_files fs).map (fun f => f.raster.values) := by
  cases hfiles : moisture_index_files fs with
  | nil => exact absurd hfiles hne
  | cons a rest =>
    rw [hfiles] at hsh
    have hdates' : moisture_index_dates (a :: rest) = .ok dates := by
      rw [← hfiles]
      exact hdates
    have hlen : dates.length = rest.length + 1 := by
      simpa using moisture_index_dates_length hdates'
    have hsh' : ∀ b ∈ rest.map (fun f => f.raster),
        b.dims = a.raster.dims ∧ b.shape = a.raster.shape := by
      intro b hb
      rcases List.mem_map.mp hb with ⟨g, hg, hgb⟩
      rw [← hgb]
      exact hsh g (List.mem_cons_of_mem a hg) a (List.mem_cons_self a rest)
    refine ⟨⟨"date", dates, a.raster.dims, a.raster.shape,
      (a :: rest).map (fun f => f.raster.values)⟩, ?_, rfl, rfl, ?_, ?_⟩
    · rw [run_pipeline_of_dates_ok hdates, hfiles]
      refine stackStage_of_concat_ok ?_
      rw [List.map_cons, xconcat_eq_ok "date" dates (by simpa using hlen) hsh']
      simp [List.map_map]
    · simp [hlen]
    · rfl

/-- C1 witness: the spec's three-file scenario stacks into a length-3 `date`
axis labelled by the three parsed dates. -/
theorem stacking_new_axis_witness :
    ∃ s, run_pipeline
        [(⟨["sub"], "2020-02-07, Sentinel-2A L1C, Moisture index.tiff",
            ⟨["band", "y", "x"], [1, 2, 2], [9, 10, 11, 12]⟩⟩ : FsFile Int),
         ⟨[], "2016-05-01, Sentinel-2A L1C, Moisture index.tiff",
            ⟨["band", "y", "x"], [1, 2, 2], [1, 2, 3, 4]⟩⟩,
         ⟨[], "2019-02-15, Sentinel-2A L1C, Moisture index.tiff",
            ⟨["band", "y", "x"], [1, 2, 2], [5, 6, 7, 8]⟩⟩] = .ok s ∧
      s.axisName = "date" ∧
      s.labels = [⟨2016, 5, 1⟩, ⟨2019, 2, 15⟩, ⟨2020, 2, 7⟩] ∧
      s.labels.length = (moisture_index_files
        [(⟨["sub"], "2020-02-07, Sentinel-2A L1C, Moisture index.tiff",
            ⟨["band", "y", "x"], [1, 2, 2], [9, 10, 11, 12]⟩⟩ : FsFile Int),
         ⟨[], "2016-05-01, Sentinel-2A L1C, Moisture index.tiff",
            ⟨["band", "y", "x"], [1, 2, 2], [1, 2, 3, 4]⟩⟩,
         ⟨[], "2019-02-15, Sentinel-2A L1C, Moisture index.tiff",
            ⟨["band", "y", "x"], [1, 2, 2], [5, 6, 7, 8]⟩⟩]).length ∧
      s.slices = (moisture_index_files
        [(⟨["sub"], "2020-02-07, Sentinel-2A L1C, Moisture index.tiff",
            ⟨["band", "y", "x"], [1, 2, 2], [9, 10, 11, 12]⟩⟩ : FsFile Int),
         ⟨[], "2016-05-01, Sentinel-2A L1C, Moisture index.tiff",
            ⟨["band", "y", "x"], [1, 2, 2], [1, 2, 3, 4]⟩⟩,
         ⟨[], "2019-02-15, Sentinel-2A L1C, Moisture index.tiff",
            ⟨["band", "y", "x"], [1, 2, 2], [5, 6, 7, 8]⟩⟩]).map
        (fun f => f.raster.values) :=
  stacking_new_axis _ [⟨2016, 5, 1⟩, ⟨2019, 2, 15⟩, ⟨2020, 2, 7⟩]
    (by rfl) (by decide) (by decide)

/-- C6 witness: two listing orders of the same two files produce the same
pipeline result. -/
theorem rerun_same_inputs_same_result_witness :
    run_pipeline
        [(⟨[], "2016-05-01, X.tiff", ⟨["band"], [1], [0]⟩⟩ : FsFile Int),
         ⟨[], "2019-02-15, X.tiff", ⟨["band"], [1], [5]⟩⟩] =
      run_pipeline
        [(⟨[], "2019-02-15, X.tiff", ⟨["band"], [1], [5]⟩⟩ : FsFile Int),
         ⟨[], "2016-05-01, X.tiff", ⟨["band"], [1], [0]⟩⟩] :=
  rerun_same_inputs_same_result _ _
    (List.Perm.swap (⟨[], "2019-02-15, X.tiff", ⟨["band"], [1], [5]⟩⟩ : FsFile Int)
      (⟨[], "2016-05-01, X.tiff", ⟨["band"], [1], [0]⟩⟩ : FsFile Int) [])
    (by decide)

/-- C8: in the lazy path, the preprocess hook runs on each per-file dataset
before that dataset enters the concatenation, receiving the originating file
identity through the recorded source path: the combined result carries the
hook's rename, and its `date` labels are each file's own parsed date, in
order, one per file, alongside that file's values. -/
theorem preprocess_hook_attaches_dates (files : List (FsFile α)) (dates : List Date)
    (hslash : ∀ f ∈ files, ∀ c ∈ f.name.data, (c != '/') = true)
    (hdates : moisture_index_dates files = .ok dates)
    (hne : files ≠ [])
    (hsh : ∀ f ∈ files, ∀ g ∈ files,
      f.raster.dims = g.raster.dims ∧ f.raster.shape = g.raster.shape) :
    ∃ s, open_mfdataset add_date_dimension files = .ok s ∧
      s.varName = "moisture_index" ∧ s.data.axisName = "date" ∧
      s.data.labels = dates ∧ s.data.labels.length = files.length ∧
      s.data.slices = files.map (fun f => f.raster.values) := by
  have hpre := preprocessAll_add_date files dates hslash hdates
  have hlen : dates.length = files.length := moisture_index_dates_length hdates
  cases files with
  | nil => exact absurd rfl hne
  | cons f0 fr =>
    cases dates with
    | nil => cases hlen
    | cons d0 dr =>
      have hlen' : dr.length = fr.length := by simpa using hlen
      have hz : List.zipWith preprocessedDs (f0 :: fr) (d0 :: dr) =
          preprocessedDs f0 d0 :: List.zipWith preprocessedDs fr dr := rfl
      have hall : ((preprocessedDs f0 d0 :: List.zipWith preprocessedDs fr dr).all
          (fun d => d.varName == (preprocessedDs f0 d0).varName)) = true := by
        rw [List.all_eq_true]
        intro x hx
        have hx' : x ∈ List.zipWith preprocessedDs (f0 :: fr) (d0 :: dr) := by
          rw [hz]
          exact hx
        rw [varName_of_mem_zipWith hx']
        rfl
      have hflat : ((preprocessedDs f0 d0 :: List.zipWith preprocessedDs fr dr).flatMap
          (fun d => d.dateCoord)) = d0 :: dr := by
        rw [← hz]
        exact flatMap_dateCoord_zipWith (f0 :: fr) (d0 :: dr) hlen.symm
      have hmap : ((preprocessedDs f0 d0 :: List.zipWith preprocessedDs fr dr).map
          (fun d => d.arr)) = f0.raster :: fr.map (fun f => f.raster) := by
        rw [← hz]
        rw [map_arr_zipWith (f0 :: fr) (d0 :: dr) hlen.symm]
        rfl
      have hsh' : ∀ b ∈ fr.map (fun f => f.raster),
          b.dims = f0.raster.dims ∧ b.shape = f0.raster.shape := by
        intro b hb
        rcases List.mem_map.mp hb with ⟨g, hg, hgb⟩
        rw [← hgb]
        exact hsh g (List.mem_cons_of_mem f0 hg) f0 (List.mem_cons_self f0 fr)
      have hx : xconcat "date"
          ((preprocessedDs f0 d0 :: List.zipWith preprocessedDs fr dr).flatMap
            (fun d => d.dateCoord))
          ((preprocessedDs f0 d0 :: List.zipWith preprocessedDs fr dr).map
            (fun d => d.arr)) =
          .ok ⟨"date", d0 :: dr, f0.raster.dims, f0.raster.shape,
            (f0.raster :: fr.map (fun f => f.raster)).map (fun x => x.values)⟩ := by
        rw [hflat, hmap]
        exact xconcat_eq_ok "date" (d0 :: dr) (by simp [hlen']) hsh'
      refine ⟨⟨"moisture_index", ⟨"date", d0 :: dr, f0.raster.dims, f0.raster.shape,
        (f0.raster :: fr.map (fun f => f.raster)).map (fun x => x.values)⟩⟩,
        ?_, rfl, rfl, rfl, ?_, ?_⟩
      · rw [open_mfdataset_of_preprocess_ok (by rw [hpre, hz]),
          combineStage_cons_ok hall hx]
        rfl
      · simpa using hlen
      · simp [List.map_map]

/-- C8 witness: the lazy path on the three-file scenario attaches the three
parsed dates and renames the variable. -/
theorem preprocess_hook_attaches_dates_witness :
    ∃ s, open_mfdataset add_date_dimension
        [(⟨[], "2016-05-01, Sentinel-2A L1C, Moisture index.tiff",
            ⟨["band", "y", "x"], [1, 2, 2], [1, 2, 3, 4]⟩⟩ : FsFile Int),
         ⟨[], "2019-02-15, Sentinel-2A L1C, Moisture index.tiff",
            ⟨["band", "y", "x"], [1, 2, 2], [5, 6, 7, 8]⟩⟩,
         ⟨["sub"], "2020-02-07, Sentinel-2A L1C, Moisture index.tiff",
            ⟨["band", "y", "x"], [1, 2, 2], [9, 10, 11, 12]⟩⟩] = .ok s ∧
      s.varName = "moisture_index" ∧ s.data.axisName = "date" ∧
      s.data.labels = [⟨2016, 5, 1⟩, ⟨2019, 2, 15⟩, ⟨2020, 2, 7⟩] ∧
      s.data.labels.length = 3 ∧
      s.data.slices = [[1, 2, 3, 4], [5, 6, 7, 8], [9, 10, 11, 12]] :=
  preprocess_hook_attaches_dates _ [⟨2016, 5, 1⟩, ⟨2019, 2, 15⟩, ⟨2020, 2, 7⟩]
    (by decide) (by rfl) (by decide) (by decide)

end CombineData
